import Mathlib

/-!
Shallow embedding of the signal engine in `src/server.ts`: the signal
lifecycle state machine (`checkPrices`), the strategy statistics, the
deduplication gate of `fetchLiveSignals`, the RSI indicator
(`calculateRSI`) and the price formatter (`formatPrice`).
Prices are modelled as rationals, JS numbers as `ℚ`/`ℕ`.
-/

/-- The five signal statuses of `botState.signalStatus`:
`'active' | 't1' | 't2' | 't3' | 'sl'`. -/
inductive SigStatus where
  | active
  | t1
  | t2
  | t3
  | sl
  deriving DecidableEq, Repr

/-- The `action` field of a `Signal`: `'buy' | 'sell'`. -/
inductive SigAction where
  | buy
  | sell
  deriving DecidableEq, Repr

/-- The parsed price levels of one signal: `parseFloat(signal.takeProfits.t1)`
etc. and `parseFloat(signal.stopLoss)` in `checkPrices`. -/
structure SignalLevels where
  t1 : ℚ
  t2 : ℚ
  t3 : ℚ
  sl : ℚ
  deriving DecidableEq, Repr

/-- One entry of `botState.traderStats`: `{wins, total}`. -/
structure StrategyStats where
  wins : ℕ
  total : ℕ
  deriving DecidableEq, Repr

/-- The per-signal status update of `checkPrices` (server.ts lines 293-318):
terminal statuses (`t3`, `sl`) return early; for a buy signal the checks are,
in order: `price <= sl` to `sl`, `price >= t3` to `t3`,
`price >= t2 && status != 't2'` to `t2`, `price >= t1 && status == 'active'`
to `t1`; otherwise (and for sell signals) the status is unchanged. -/
def stepStatus (act : SigAction) (lv : SignalLevels) (status : SigStatus) (price : ℚ) : SigStatus :=
  if status = SigStatus.t3 ∨ status = SigStatus.sl then status
  else if act = SigAction.buy then
    if price ≤ lv.sl then SigStatus.sl
    else if lv.t3 ≤ price then SigStatus.t3
    else if lv.t2 ≤ price ∧ status ≠ SigStatus.t2 then SigStatus.t2
    else if lv.t1 ≤ price ∧ status = SigStatus.active then SigStatus.t1
    else status
  else status

/-- The full per-signal tick of `checkPrices` (server.ts lines 293-337):
compute the new status; if it changed, record it and — exactly when the new
status is `t1` or `sl` — bump `traderStats[signal.traderName]` by
`wins + (isWin ? 1 : 0)` and `total + 1`. -/
def checkSignalTick (act : SigAction) (lv : SignalLevels) (price : ℚ) (traderName : String)
    (status : SigStatus) (stats : String → StrategyStats) :
    SigStatus × (String → StrategyStats) :=
  let newStatus := stepStatus act lv status price
  if newStatus ≠ status then
    (newStatus,
      if newStatus = SigStatus.t1 ∨ newStatus = SigStatus.sl then
        fun n =>
          if n = traderName then
            ⟨(stats traderName).wins + (if newStatus = SigStatus.t1 then 1 else 0),
             (stats traderName).total + 1⟩
          else stats n
      else stats)
  else (status, stats)

/-- Iterated status updates over a sequence of observed prices, one tracker
tick per price. -/
def runStatus (act : SigAction) (lv : SignalLevels) (status : SigStatus) (prices : List ℚ) : SigStatus :=
  prices.foldl (fun st p => stepStatus act lv st p) status

/-- Iterated full ticks (status and stats) over a sequence of prices. -/
def runTicks (act : SigAction) (lv : SignalLevels) (traderName : String)
    (st : SigStatus × (String → StrategyStats)) (prices : List ℚ) :
    SigStatus × (String → StrategyStats) :=
  prices.foldl (fun st p => checkSignalTick act lv p traderName st.1 st.2) st

/-- The seeded `botState.traderStats` entries (server.ts lines 35-43). -/
def initialTraderStats : List (String × StrategyStats) :=
  [("RSI Oversold (1h)", ⟨0, 0⟩),
   ("Volume Breakout (1h)", ⟨0, 0⟩),
   ("PlanB", ⟨10, 12⟩),
   ("Michaël van de Poppe", ⟨8, 10⟩),
   ("Crypto Rover", ⟨15, 20⟩),
   ("Ash Crypto", ⟨9, 11⟩),
   ("Doctor Profit", ⟨18, 20⟩)]

lemma stepStatus_ne_active (act : SigAction) (lv : SignalLevels) (s : SigStatus) (p : ℚ)
    (h : s ≠ SigStatus.active) : stepStatus act lv s p ≠ SigStatus.active := by
  unfold stepStatus
  split_ifs <;> simp_all

lemma stepStatus_terminal (act : SigAction) (lv : SignalLevels) (s : SigStatus) (p : ℚ)
    (h : s = SigStatus.t3 ∨ s = SigStatus.sl) : stepStatus act lv s p = s := by
  unfold stepStatus
  simp [h]

lemma stepStatus_t2_cases (act : SigAction) (lv : SignalLevels) (p : ℚ) :
    stepStatus act lv SigStatus.t2 p = SigStatus.t2 ∨
    stepStatus act lv SigStatus.t2 p = SigStatus.t3 ∨
    stepStatus act lv SigStatus.t2 p = SigStatus.sl := by
  unfold stepStatus
  split_ifs <;> simp_all

/-- C2: The lifecycle tracker's status transitions are monotone for every
signal and every price sequence: a non-`active` status (in particular
`target1Hit`) is never again observed at `active`; a terminal status
(`target3Hit` or `stopHit`) never changes; from `target2Hit` the only
reachable statuses are `target2Hit`, `target3Hit` and `stopHit`. -/
theorem status_transitions_monotone (act : SigAction) (lv : SignalLevels)
    (prices : List ℚ) (s : SigStatus) :
    (s ≠ SigStatus.active → runStatus act lv s prices ≠ SigStatus.active) ∧
    (s = SigStatus.t3 ∨ s = SigStatus.sl → runStatus act lv s prices = s) ∧
    (s = SigStatus.t2 →
      runStatus act lv s prices = SigStatus.t2 ∨
      runStatus act lv s prices = SigStatus.t3 ∨
      runStatus act lv s prices = SigStatus.sl) := by
  induction prices generalizing s with
  | nil => exact ⟨fun h => h, fun h => rfl, fun h => Or.inl h⟩
  | cons p ps ih =>
    refine ⟨fun h => ?_, fun h => ?_, fun h => ?_⟩
    · exact (ih (stepStatus act lv s p)).1 (stepStatus_ne_active act lv s p h)
    · have h1 : stepStatus act lv s p = s := stepStatus_terminal act lv s p h
      show runStatus act lv (stepStatus act lv s p) ps = s
      rw [h1]
      exact (ih s).2.1 h
    · subst h
      have hr : runStatus act lv SigStatus.t2 (p :: ps) =
          runStatus act lv (stepStatus act lv SigStatus.t2 p) ps := rfl
      rw [hr]
      rcases stepStatus_t2_cases act lv p with h2 | h2 | h2 <;> rw [h2]
      · exact (ih SigStatus.t2).2.2 rfl
      · exact Or.inr (Or.inl ((ih SigStatus.t3).2.1 (Or.inl rfl)))
      · exact Or.inr (Or.inr ((ih SigStatus.sl).2.1 (Or.inr rfl)))

/-- Witness for C2 at concrete inputs. -/
theorem status_transitions_monotone_witness :
    (runStatus SigAction.buy ⟨2, 3, 4, 1⟩ SigStatus.t1 [5] ≠ SigStatus.active) ∧
    (runStatus SigAction.buy ⟨2, 3, 4, 1⟩ SigStatus.t3 [5] = SigStatus.t3) ∧
    (runStatus SigAction.buy ⟨2, 3, 4, 1⟩ SigStatus.t2 [5] = SigStatus.t2 ∨
     runStatus SigAction.buy ⟨2, 3, 4, 1⟩ SigStatus.t2 [5] = SigStatus.t3 ∨
     runStatus SigAction.buy ⟨2, 3, 4, 1⟩ SigStatus.t2 [5] = SigStatus.sl) :=
  ⟨(status_transitions_monotone SigAction.buy ⟨2, 3, 4, 1⟩ [5] SigStatus.t1).1 (by decide),
   (status_transitions_monotone SigAction.buy ⟨2, 3, 4, 1⟩ [5] SigStatus.t3).2.1 (Or.inl rfl),
   (status_transitions_monotone SigAction.buy ⟨2, 3, 4, 1⟩ [5] SigStatus.t2).2.2 rfl⟩

/-- C3: For every non-terminal buy signal, a price that is at or below the
stop loss yields status `stopHit` after one tick, regardless of how the
price compares with the targets: the stop-loss check precedes all target
checks. -/
theorem stoploss_dominates (lv : SignalLevels) (s : SigStatus) (price : ℚ)
    (h1 : s ≠ SigStatus.t3) (h2 : s ≠ SigStatus.sl) (h3 : price ≤ lv.sl) :
    stepStatus SigAction.buy lv s price = SigStatus.sl := by
  unfold stepStatus
  simp [h1, h2, h3]

/-- Witness for C3: a price simultaneously below the stop loss and above all
three targets still resolves to `stopHit`. -/
theorem stoploss_dominates_witness :
    (5 : ℚ) ≤ (10 : ℚ) ∧ (3 : ℚ) ≤ (5 : ℚ) ∧
    stepStatus SigAction.buy ⟨1, 2, 3, 10⟩ SigStatus.active 5 = SigStatus.sl :=
  ⟨by norm_num, by norm_num,
   stoploss_dominates ⟨1, 2, 3, 10⟩ SigStatus.active 5 (by decide) (by decide) (by norm_num)⟩

lemma stepStatus_sell (lv : SignalLevels) (s : SigStatus) (p : ℚ) :
    stepStatus SigAction.sell lv s p = s := by
  unfold stepStatus
  split_ifs <;> simp_all

lemma stepStatus_buy_eval (lv : SignalLevels) (s : SigStatus) (p : ℚ)
    (h : ¬(s = SigStatus.t3 ∨ s = SigStatus.sl)) :
    stepStatus SigAction.buy lv s p =
      if p ≤ lv.sl then SigStatus.sl
      else if lv.t3 ≤ p then SigStatus.t3
      else if lv.t2 ≤ p ∧ s ≠ SigStatus.t2 then SigStatus.t2
      else if lv.t1 ≤ p ∧ s = SigStatus.active then SigStatus.t1
      else s := by
  unfold stepStatus
  rw [if_neg h, if_pos rfl]

lemma stepStatus_idem (act : SigAction) (lv : SignalLevels) (s : SigStatus) (p : ℚ) :
    stepStatus act lv (stepStatus act lv s p) p = stepStatus act lv s p := by
  cases act with
  | sell => rw [stepStatus_sell, stepStatus_sell]
  | buy =>
    by_cases hT : s = SigStatus.t3 ∨ s = SigStatus.sl
    · rw [stepStatus_terminal _ _ _ _ hT, stepStatus_terminal _ _ _ _ hT]
    · rw [stepStatus_buy_eval lv s p hT]
      by_cases hsl : p ≤ lv.sl
      · simp only [if_pos hsl]
        exact stepStatus_terminal _ _ _ _ (Or.inr rfl)
      · by_cases ht3 : lv.t3 ≤ p
        · simp only [if_neg hsl, if_pos ht3]
          exact stepStatus_terminal _ _ _ _ (Or.inl rfl)
        · by_cases ht2 : lv.t2 ≤ p ∧ s ≠ SigStatus.t2
          · simp only [if_neg hsl, if_neg ht3, if_pos ht2]
            rw [stepStatus_buy_eval lv SigStatus.t2 p (by simp)]
            simp [hsl, ht3]
          · by_cases ht1 : lv.t1 ≤ p ∧ s = SigStatus.active
            · simp only [if_neg hsl, if_neg ht3, if_neg ht2, if_pos ht1]
              rw [stepStatus_buy_eval lv SigStatus.t1 p (by simp)]
              have ht2n : ¬ lv.t2 ≤ p := fun hc => ht2 ⟨hc, by rw [ht1.2]; decide⟩
              simp [hsl, ht3, ht2n]
            · simp only [if_neg hsl, if_neg ht3, if_neg ht2, if_neg ht1]
              rw [stepStatus_buy_eval lv s p hT]
              simp only [if_neg hsl, if_neg ht3, if_neg ht2, if_neg ht1]

lemma checkSignalTick_of_fixed (act : SigAction) (lv : SignalLevels) (p : ℚ) (name : String)
    (s : SigStatus) (stats : String → StrategyStats)
    (h : stepStatus act lv s p = s) :
    checkSignalTick act lv p name s stats = (s, stats) := by
  dsimp only [checkSignalTick]
  simp [h]

lemma checkSignalTick_fst (act : SigAction) (lv : SignalLevels) (p : ℚ) (name : String)
    (s : SigStatus) (stats : String → StrategyStats) :
    (checkSignalTick act lv p name s stats).1 = stepStatus act lv s p := by
  by_cases h : stepStatus act lv s p = s
  · rw [checkSignalTick_of_fixed act lv p name s stats h, h]
  · dsimp only [checkSignalTick]
    rw [if_pos h]

/-- C8: The per-signal lifecycle tick is idempotent: applying the tick a
second time with the same price changes neither the status nor any
strategy's statistics. -/
theorem lifecycle_tick_idempotent (act : SigAction) (lv : SignalLevels) (price : ℚ)
    (name : String) (s : SigStatus) (stats : String → StrategyStats) :
    checkSignalTick act lv price name
      (checkSignalTick act lv price name s stats).1
      (checkSignalTick act lv price name s stats).2
    = checkSignalTick act lv price name s stats := by
  have h1 : (checkSignalTick act lv price name s stats).1 = stepStatus act lv s price :=
    checkSignalTick_fst act lv price name s stats
  rw [h1]
  rw [checkSignalTick_of_fixed act lv price name _ _ (stepStatus_idem act lv s price)]
  exact Prod.ext h1.symm rfl

lemma checkSignalTick_changed (act : SigAction) (lv : SignalLevels) (p : ℚ) (name : String)
    (s : SigStatus) (stats : String → StrategyStats) (t : SigStatus)
    (hstep : stepStatus act lv s p = t) (hne : t ≠ s) :
    checkSignalTick act lv p name s stats =
      (t, if t = SigStatus.t1 ∨ t = SigStatus.sl then
            fun n =>
              if n = name then
                ⟨(stats name).wins + (if t = SigStatus.t1 then 1 else 0),
                 (stats name).total + 1⟩
              else stats n
          else stats) := by
  dsimp only [checkSignalTick]
  rw [hstep, if_pos hne]

/-- C4: `wins ≤ total` holds for every seeded `traderStats` entry, and is
preserved by every stats update the tracker performs: a tick adds 1 to
`total` and at most 1 to `wins` of at most one strategy. -/
theorem wins_le_total_invariant :
    (∀ e ∈ initialTraderStats, e.2.wins ≤ e.2.total) ∧
    (∀ (act : SigAction) (lv : SignalLevels) (price : ℚ) (name : String) (s : SigStatus)
        (stats : String → StrategyStats),
      (∀ n, (stats n).wins ≤ (stats n).total) →
      ∀ n, ((checkSignalTick act lv price name s stats).2 n).wins ≤
        ((checkSignalTick act lv price name s stats).2 n).total) := by
  constructor
  · decide
  · intro act lv price name s stats hstats n
    dsimp only [checkSignalTick]
    split_ifs with h1 h2 h3
    · dsimp only
      split_ifs with hn
      · dsimp only
        have := hstats name
        omega
      · exact hstats n
    · dsimp only
      split_ifs with hn
      · dsimp only
        have := hstats name
        omega
      · exact hstats n
    · exact hstats n
    · exact hstats n

/-- Witness for C4's preservation part at a concrete state. -/
theorem wins_le_total_invariant_witness :
    ((checkSignalTick SigAction.buy ⟨2, 3, 4, 1⟩ 5 "PlanB" SigStatus.active
        (fun _ => ⟨10, 12⟩)).2 "PlanB").wins ≤
      ((checkSignalTick SigAction.buy ⟨2, 3, 4, 1⟩ 5 "PlanB" SigStatus.active
        (fun _ => ⟨10, 12⟩)).2 "PlanB").total :=
  wins_le_total_invariant.2 SigAction.buy ⟨2, 3, 4, 1⟩ 5 "PlanB" SigStatus.active
    (fun _ => ⟨10, 12⟩) (by intro n; show (10 : ℕ) ≤ 12; decide) "PlanB"

/-- C5: a tick updates strategy stats exactly on transitions whose new
status is `target1Hit` or `stopHit`: a transition to `target1Hit` adds 1 to
both `wins` and `total` of the signal's strategy, a transition to `stopHit`
adds 1 only to `total`; every other strategy is untouched; a new status of
`target2Hit` or `target3Hit` (even reached directly from `active`) and a
tick without status change leave all stats unchanged. -/
theorem stats_updated_exactly_on_t1_sl (act : SigAction) (lv : SignalLevels) (price : ℚ)
    (name : String) (s : SigStatus) (stats : String → StrategyStats) :
    (stepStatus act lv s price = SigStatus.t1 → s ≠ SigStatus.t1 →
      (checkSignalTick act lv price name s stats).2 name =
        ⟨(stats name).wins + 1, (stats name).total + 1⟩ ∧
      ∀ n, n ≠ name → (checkSignalTick act lv price name s stats).2 n = stats n) ∧
    (stepStatus act lv s price = SigStatus.sl → s ≠ SigStatus.sl →
      (checkSignalTick act lv price name s stats).2 name =
        ⟨(stats name).wins, (stats name).total + 1⟩ ∧
      ∀ n, n ≠ name → (checkSignalTick act lv price name s stats).2 n = stats n) ∧
    (stepStatus act lv s price = SigStatus.t2 ∨ stepStatus act lv s price = SigStatus.t3 →
      (checkSignalTick act lv price name s stats).2 = stats) ∧
    (stepStatus act lv s price = s →
      (checkSignalTick act lv price name s stats).2 = stats) := by
  refine ⟨fun h1 hs1 => ?_, fun h2 hs2 => ?_, fun h3 => ?_, fun h4 => ?_⟩
  · rw [checkSignalTick_changed act lv price name s stats SigStatus.t1 h1
      (fun hc => hs1 hc.symm)]
    constructor
    · simp
    · intro n hn
      simp [hn]
  · rw [checkSignalTick_changed act lv price name s stats SigStatus.sl h2
      (fun hc => hs2 hc.symm)]
    constructor
    · simp
    · intro n hn
      simp [hn]
  · by_cases hch : stepStatus act lv s price = s
    · rw [checkSignalTick_of_fixed act lv price name s stats hch]
    · rcases h3 with h3 | h3
      · rw [checkSignalTick_changed act lv price name s stats SigStatus.t2 h3
          (fun hc => hch (h3.trans hc))]
        simp
      · rw [checkSignalTick_changed act lv price name s stats SigStatus.t3 h3
          (fun hc => hch (h3.trans hc))]
        simp
  · rw [checkSignalTick_of_fixed act lv price name s stats h4]

/-- Witness for C5: a win transition, a loss transition and a
`target3Hit` transition at concrete inputs. -/
theorem stats_updated_exactly_on_t1_sl_witness :
    ((checkSignalTick SigAction.buy ⟨2, 10, 20, 1⟩ 3 "PlanB" SigStatus.active
        (fun _ => ⟨10, 12⟩)).2 "PlanB" = ⟨11, 13⟩ ∧
      ∀ n, n ≠ "PlanB" → (checkSignalTick SigAction.buy ⟨2, 10, 20, 1⟩ 3 "PlanB"
        SigStatus.active (fun _ => ⟨10, 12⟩)).2 n = (fun _ => (⟨10, 12⟩ : StrategyStats)) n) ∧
    ((checkSignalTick SigAction.buy ⟨2, 10, 20, 1⟩ 0 "PlanB" SigStatus.active
        (fun _ => ⟨10, 12⟩)).2 "PlanB" = ⟨10, 13⟩ ∧
      ∀ n, n ≠ "PlanB" → (checkSignalTick SigAction.buy ⟨2, 10, 20, 1⟩ 0 "PlanB"
        SigStatus.active (fun _ => ⟨10, 12⟩)).2 n = (fun _ => (⟨10, 12⟩ : StrategyStats)) n) ∧
    (checkSignalTick SigAction.buy ⟨2, 10, 20, 1⟩ 25 "PlanB" SigStatus.active
        (fun _ => ⟨10, 12⟩)).2 = (fun _ => (⟨10, 12⟩ : StrategyStats)) :=
  ⟨(stats_updated_exactly_on_t1_sl SigAction.buy ⟨2, 10, 20, 1⟩ 3 "PlanB" SigStatus.active
      (fun _ => ⟨10, 12⟩)).1 (by decide) (by decide),
   (stats_updated_exactly_on_t1_sl SigAction.buy ⟨2, 10, 20, 1⟩ 0 "PlanB" SigStatus.active
      (fun _ => ⟨10, 12⟩)).2.1 (by decide) (by decide),
   (stats_updated_exactly_on_t1_sl SigAction.buy ⟨2, 10, 20, 1⟩ 25 "PlanB" SigStatus.active
      (fun _ => ⟨10, 12⟩)).2.2.1 (Or.inr (by decide))⟩

lemma step_scenario_tick1 :
    stepStatus SigAction.buy ⟨101.2, 102, 103.5, 98.5⟩ SigStatus.active 100 =
      SigStatus.active := by
  rw [stepStatus_buy_eval _ _ _ (by simp)]
  norm_num

lemma step_scenario_tick2 :
    stepStatus SigAction.buy ⟨101.2, 102, 103.5, 98.5⟩ SigStatus.active 101.5 =
      SigStatus.t1 := by
  rw [stepStatus_buy_eval _ _ _ (by simp)]
  norm_num

lemma step_scenario_tick3 :
    stepStatus SigAction.buy ⟨101.2, 102, 103.5, 98.5⟩ SigStatus.t1 102.5 =
      SigStatus.t2 := by
  rw [stepStatus_buy_eval _ _ _ (by simp)]
  norm_num

/-- C7 as stated is false: on the scenario (entry 100, stopLoss 98.5,
target1 101.2, target2 102, target3 103.5) the run over prices
[100, 101.5, 102.5] from `active` does end at `target2Hit`, but the
strategy's stats DO change: the second tick (price 101.5 ≥ target1 101.2)
is an `active → target1Hit` transition, which records a win. -/
theorem scenario_run_counterexample :
    (runTicks SigAction.buy ⟨101.2, 102, 103.5, 98.5⟩ "RSI Oversold (1h)"
        (SigStatus.active, fun _ => ⟨0, 0⟩) [100, 101.5, 102.5]).1 = SigStatus.t2 ∧
    (runTicks SigAction.buy ⟨101.2, 102, 103.5, 98.5⟩ "RSI Oversold (1h)"
        (SigStatus.active, fun _ => ⟨0, 0⟩) [100, 101.5, 102.5]).2 "RSI Oversold (1h)"
      ≠ (⟨0, 0⟩ : StrategyStats) := by
  have h : runTicks SigAction.buy ⟨101.2, 102, 103.5, 98.5⟩ "RSI Oversold (1h)"
      (SigStatus.active, fun _ => ⟨0, 0⟩) [100, 101.5, 102.5] =
      (SigStatus.t2, fun n => if n = "RSI Oversold (1h)" then ⟨1, 1⟩ else ⟨0, 0⟩) := by
    simp only [runTicks, List.foldl_cons, List.foldl_nil]
    rw [checkSignalTick_of_fixed _ _ _ _ _ _ step_scenario_tick1]
    dsimp only
    rw [checkSignalTick_changed _ _ _ _ _ _ _ step_scenario_tick2 (by simp)]
    dsimp only
    rw [checkSignalTick_changed _ _ _ _ _ _ _ step_scenario_tick3 (by simp)]
    simp
  rw [h]
  constructor
  · rfl
  · simp

/-- C7 amended: the scenario run over prices [100, 101.5, 102.5] from
`active` ends at `target2Hit`, and the strategy's stats gain exactly one
win: `wins + 1` and `total + 1`, recorded at the `active → target1Hit`
transition of the second tick (the claim's "no stats increment" part is
wrong; target1 is hit at price 101.5 before target2 at 102.5). -/
theorem scenario_run_amended (stats : String → StrategyStats) (name : String) :
    runTicks SigAction.buy ⟨101.2, 102, 103.5, 98.5⟩ name (SigStatus.active, stats)
        [100, 101.5, 102.5] =
      (SigStatus.t2,
       fun n => if n = name then ⟨(stats name).wins + 1, (stats name).total + 1⟩
                else stats n) := by
  simp only [runTicks, List.foldl_cons, List.foldl_nil]
  rw [checkSignalTick_of_fixed _ _ _ _ _ _ step_scenario_tick1]
  dsimp only
  rw [checkSignalTick_changed _ _ _ _ _ _ _ step_scenario_tick2 (by simp)]
  dsimp only
  rw [checkSignalTick_changed _ _ _ _ _ _ _ step_scenario_tick3 (by simp)]
  simp

lemma step_winloss_tick1 :
    stepStatus SigAction.buy ⟨101.2, 102, 103.5, 98.5⟩ SigStatus.active 101.3 =
      SigStatus.t1 := by
  rw [stepStatus_buy_eval _ _ _ (by simp)]
  norm_num

lemma step_winloss_tick2 :
    stepStatus SigAction.buy ⟨101.2, 102, 103.5, 98.5⟩ SigStatus.t1 98 =
      SigStatus.sl := by
  rw [stepStatus_buy_eval _ _ _ (by simp)]
  norm_num

/-- C10: one signal can contribute both a win and a loss: with the scenario
levels, price 101.3 turns `active` into `target1Hit` (wins + 1, total + 1)
and a later price 98 turns `target1Hit` into `stopHit` (total + 1 again), so
the strategy's counters gain `wins + 1` and `total + 2` from this one
signal; the loss does not undo the earlier win. -/
theorem win_then_loss_both_counted (stats : String → StrategyStats) (name : String) :
    runTicks SigAction.buy ⟨101.2, 102, 103.5, 98.5⟩ name (SigStatus.active, stats)
        [101.3, 98] =
      (SigStatus.sl,
       fun n => if n = name then ⟨(stats name).wins + 1, (stats name).total + 2⟩
                else stats n) := by
  simp only [runTicks, List.foldl_cons, List.foldl_nil]
  rw [checkSignalTick_changed _ _ _ _ _ _ _ step_winloss_tick1 (by simp)]
  dsimp only
  rw [checkSignalTick_changed _ _ _ _ _ _ _ step_winloss_tick2 (by simp)]
  simp only [if_pos (Or.inl rfl), if_pos (Or.inr rfl)]
  refine Prod.ext rfl ?_
  funext n
  by_cases hn : n = name
  · simp [hn]
  · simp [hn]

/-- One stored signal, as the dedup gate of `fetchLiveSignals` sees it: its
`id`, its base coin (`pair.base`) and `tsMillis`, the creation timestamp
`parseInt(id.split('-')[1])` embedded in the id of the form
`<SYMBOL>-<epochMillis>` (`none` models `NaN`: an id with no parsable
timestamp part). -/
structure StoredSignal where
  id : String
  base : String
  tsMillis : Option ℕ
  deriving DecidableEq, Repr

/-- `botState.signalStatus[id] || 'active'`: statuses default to `active`. -/
def lookupStatus (m : String → Option SigStatus) (i : String) : SigStatus :=
  (m i).getD SigStatus.active

/-- `['active', 't1', 't2'].includes(status)`: the signal is still open. -/
def isOpenStatus (s : SigStatus) : Bool :=
  s == SigStatus.active || s == SigStatus.t1 || s == SigStatus.t2

/-- The open-signal lookup of `fetchLiveSignals` (server.ts lines 209-212):
the first stored signal with the candidate's base coin whose status is in
`['active', 't1', 't2']`. -/
def activeSignalForCoin (signals : List StoredSignal) (m : String → Option SigStatus)
    (baseCoin : String) : Option StoredSignal :=
  signals.find? (fun s => s.base == baseCoin && isOpenStatus (lookupStatus m s.id))

/-- `botState.signals.find(s => s.pair.base === baseCoin)` (server.ts line 215). -/
def lastSignalForCoin (signals : List StoredSignal) (baseCoin : String) :
    Option StoredSignal :=
  signals.find? (fun s => s.base == baseCoin)

/-- The 60-minute cooldown check of `fetchLiveSignals` (server.ts lines
216-222): the first stored signal for the coin, if any, has a parsable
timestamp within the last `60 * 60 * 1000` milliseconds. -/
def isRecent (signals : List StoredSignal) (baseCoin : String) (now : ℕ) : Bool :=
  match lastSignalForCoin signals baseCoin with
  | none => false
  | some s =>
    match s.tsMillis with
    | none => false
    | some ts => decide (now - ts < 60 * 60 * 1000)

/-- The dedup gate `!activeSignalForCoin && !isRecent` (server.ts line 224):
a new signal for `baseCoin` is emitted only when this is `true`. -/
def emitGate (signals : List StoredSignal) (m : String → Option SigStatus)
    (baseCoin : String) (now : ℕ) : Bool :=
  (activeSignalForCoin signals m baseCoin).isNone && !(isRecent signals baseCoin now)

/-- `botState.signalStatus[signal.id] = 'active'` on emission (line 249). -/
def setStatus (m : String → Option SigStatus) (i : String) (st : SigStatus) :
    String → Option SigStatus :=
  fun j => if j = i then some st else m j

/-- No two stored signals with the same base coin are both open. -/
def atMostOneOpen (signals : List StoredSignal) (m : String → Option SigStatus) : Prop :=
  signals.Pairwise (fun a b => a.base = b.base →
    ¬(isOpenStatus (lookupStatus m a.id) = true ∧ isOpenStatus (lookupStatus m b.id) = true))

/-- The stored signal list is ordered newest first, as `unshift` keeps it. -/
def newestFirst (signals : List StoredSignal) : Prop :=
  signals.Pairwise (fun a b => b.tsMillis.getD 0 ≤ a.tsMillis.getD 0)

lemma find?_first_of_pairwise {α : Type} {R : α → α → Prop} {p : α → Bool} :
    ∀ l : List α, l.Pairwise R → ∀ a, l.find? p = some a →
      ∀ b ∈ l, p b = true → b = a ∨ R a b := by
  intro l
  induction l with
  | nil =>
    intro _ a ha
    simp at ha
  | cons x xs ih =>
    intro hp a ha b hb hpb
    by_cases hx : p x = true
    · rw [List.find?_cons_of_pos _ hx] at ha
      injection ha with ha
      subst ha
      rcases List.mem_cons.mp hb with hbx | hbx
      · exact Or.inl hbx
      · exact Or.inr (List.rel_of_pairwise_cons hp hbx)
    · rw [List.find?_cons_of_neg _ hx] at ha
      rcases List.mem_cons.mp hb with hbx | hbx
      · rw [hbx] at hpb
        exact absurd hpb hx
      · exact ih (List.pairwise_cons.mp hp).2 a ha b hbx hpb

lemma isOpenStatus_step (act : SigAction) (lv : SignalLevels) (s : SigStatus) (p : ℚ)
    (h : isOpenStatus (stepStatus act lv s p) = true) : isOpenStatus s = true := by
  revert h
  unfold stepStatus isOpenStatus
  cases s <;> split_ifs <;> simp_all

lemma lookup_set_step_open (m : String → Option SigStatus) (i : String)
    (act : SigAction) (lv : SignalLevels) (p : ℚ) (x : String)
    (h : isOpenStatus (lookupStatus
      (setStatus m i (stepStatus act lv (lookupStatus m i) p)) x) = true) :
    isOpenStatus (lookupStatus m x) = true := by
  revert h
  unfold lookupStatus setStatus
  by_cases hx : x = i
  · rw [if_pos hx, Option.getD_some, hx]
    exact isOpenStatus_step act lv _ p
  · rw [if_neg hx]
    exact fun h => h

/-- C1: when the dedup gate of `fetchLiveSignals` lets a new signal for
`baseCoin` through, then (i) no stored signal for that base coin is open
(status in `{active, t1, t2}`), (ii) provided the stored list is ordered
newest first with parsable timestamps, no stored signal for that base coin
was created within the last 60 minutes, (iii) prepending the new signal
with status `active` preserves the at-most-one-open-signal-per-coin
invariant, and (iv) so does any lifecycle status update performed by the
tracker on an existing signal. -/
theorem dedup_gate_sound (signals : List StoredSignal) (m : String → Option SigStatus)
    (baseCoin : String) (now : ℕ) (newSig : StoredSignal)
    (hGate : emitGate signals m baseCoin now = true)
    (hbase : newSig.base = baseCoin)
    (hfresh : ∀ s ∈ signals, s.id ≠ newSig.id)
    (hts : ∀ s ∈ signals, s.tsMillis.isSome = true)
    (hsorted : newestFirst signals)
    (hinv : atMostOneOpen signals m) :
    (∀ s ∈ signals, s.base = baseCoin → isOpenStatus (lookupStatus m s.id) = false) ∧
    (∀ s ∈ signals, s.base = baseCoin →
      ∀ ts, s.tsMillis = some ts → ¬(now - ts < 60 * 60 * 1000)) ∧
    atMostOneOpen (newSig :: signals) (setStatus m newSig.id SigStatus.active) ∧
    (∀ (act : SigAction) (lv : SignalLevels) (p : ℚ) (i : String),
      atMostOneOpen signals (setStatus m i (stepStatus act lv (lookupStatus m i) p))) := by
  have hg : (activeSignalForCoin signals m baseCoin).isNone = true ∧
      isRecent signals baseCoin now = false := by
    have hg0 := hGate
    unfold emitGate at hg0
    simp only [Bool.and_eq_true, Bool.not_eq_true'] at hg0
    exact hg0
  obtain ⟨hg1, hg2⟩ := hg
  have hnone : activeSignalForCoin signals m baseCoin = none :=
    Option.isNone_iff_eq_none.mp hg1
  unfold activeSignalForCoin at hnone
  have hopen : ∀ s ∈ signals, s.base = baseCoin →
      isOpenStatus (lookupStatus m s.id) = false := by
    intro s hs hsb
    have hps := List.find?_eq_none.mp hnone s hs
    simp only [Bool.and_eq_true, beq_iff_eq, not_and] at hps
    have := hps hsb
    exact Bool.not_eq_true _ ▸ this
  refine ⟨hopen, ?_, ?_, ?_⟩
  · intro s hs hsb ts hsts hlt
    cases hfind : lastSignalForCoin signals baseCoin with
    | none =>
      unfold lastSignalForCoin at hfind
      have := List.find?_eq_none.mp hfind s hs
      simp [hsb] at this
    | some s0 =>
      have hfind2 := hfind
      unfold lastSignalForCoin at hfind2
      have hs0mem : s0 ∈ signals := List.mem_of_find?_eq_some hfind2
      obtain ⟨ts0, hts0⟩ := Option.isSome_iff_exists.mp (hts s0 hs0mem)
      have hrec := hg2
      unfold isRecent at hrec
      rw [hfind] at hrec
      dsimp only at hrec
      rw [hts0] at hrec
      dsimp only at hrec
      have hge : ¬(now - ts0 < 60 * 60 * 1000) := of_decide_eq_false hrec
      have horder := find?_first_of_pairwise signals hsorted s0 hfind2 s hs
        (by simp [hsb])
      rcases horder with horder | horder
      · rw [horder, hts0] at hsts
        injection hsts with hsts
        omega
      · rw [hsts, hts0] at horder
        simp only [Option.getD_some] at horder
        omega
  · unfold atMostOneOpen
    rw [List.pairwise_cons]
    constructor
    · intro b hb hbase2 hcon
      have hb2 : b.base = baseCoin := hbase2.symm.trans hbase
      have hlk : lookupStatus (setStatus m newSig.id SigStatus.active) b.id =
          lookupStatus m b.id := by
        unfold lookupStatus setStatus
        rw [if_neg (hfresh b hb)]
      rcases hcon with ⟨_, hob⟩
      rw [hlk, hopen b hb hb2] at hob
      exact Bool.false_ne_true hob
    · refine List.Pairwise.imp_of_mem ?_ hinv
      intro a b ha hb hR hab hcon
      have hlka : lookupStatus (setStatus m newSig.id SigStatus.active) a.id =
          lookupStatus m a.id := by
        unfold lookupStatus setStatus
        rw [if_neg (hfresh a ha)]
      have hlkb : lookupStatus (setStatus m newSig.id SigStatus.active) b.id =
          lookupStatus m b.id := by
        unfold lookupStatus setStatus
        rw [if_neg (hfresh b hb)]
      rw [hlka, hlkb] at hcon
      exact hR hab hcon
  · intro act lv p i
    unfold atMostOneOpen at hinv ⊢
    refine List.Pairwise.imp_of_mem ?_ hinv
    intro a b _ _ hR hab hcon
    exact hR hab ⟨lookup_set_step_open m i act lv p a.id hcon.1,
                  lookup_set_step_open m i act lv p b.id hcon.2⟩

/-- Witness for C1 at a concrete state: one stored closed (`sl`) signal for
ETH created at epoch 1000 ms, the gate passing at `now` = 4000000 ms for a
fresh ETH signal. -/
theorem dedup_gate_sound_witness :
    isOpenStatus (lookupStatus (fun _ => some SigStatus.sl) "ETHUSDT-1000") = false ∧
    ¬(4000000 - 1000 < 60 * 60 * 1000) ∧
    atMostOneOpen
      [⟨"ETHUSDT-4000000", "ETH", some 4000000⟩, ⟨"ETHUSDT-1000", "ETH", some 1000⟩]
      (setStatus (fun _ => some SigStatus.sl) "ETHUSDT-4000000" SigStatus.active) := by
  have H := dedup_gate_sound [⟨"ETHUSDT-1000", "ETH", some 1000⟩]
    (fun _ => some SigStatus.sl) "ETH" 4000000 ⟨"ETHUSDT-4000000", "ETH", some 4000000⟩
    (by decide) rfl (by decide) (by decide)
    (by simp [newestFirst]) (by simp [atMostOneOpen])
  exact ⟨H.1 ⟨"ETHUSDT-1000", "ETH", some 1000⟩ (List.mem_singleton_self _) rfl,
         H.2.1 ⟨"ETHUSDT-1000", "ETH", some 1000⟩ (List.mem_singleton_self _) rfl
           1000 rfl,
         H.2.2.1⟩

/-- One decimal digit as a character. -/
def digitChar (n : ℕ) : Char :=
  if n = 0 then '0' else if n = 1 then '1' else if n = 2 then '2'
  else if n = 3 then '3' else if n = 4 then '4' else if n = 5 then '5'
  else if n = 6 then '6' else if n = 7 then '7' else if n = 8 then '8' else '9'

/-- Decimal digits of `n`, most significant first; `fuel` bounds recursion. -/
def natDigitsAux (fuel : ℕ) (n : ℕ) : List Char :=
  match fuel with
  | 0 => []
  | f + 1 => if n = 0 then [] else natDigitsAux f (n / 10) ++ [digitChar (n % 10)]

/-- Decimal rendering of a natural number. -/
def natToDecString (n : ℕ) : String :=
  if n = 0 then "0" else String.mk (natDigitsAux (n + 1) n)

/-- JS `Number.prototype.toFixed(d)` on a nonnegative number: round to `d`
decimal places and render with exactly `d` digits after the point. -/
def toFixed (p : ℚ) (d : ℕ) : String :=
  let scaled := (round (p * (10 : ℚ) ^ d)).toNat
  let ip := natToDecString (scaled / 10 ^ d)
  let fpDigits := natToDecString (scaled % 10 ^ d)
  ip ++ "." ++ String.mk (List.replicate (d - fpDigits.length) '0') ++ fpDigits

/-- `formatPrice` (server.ts lines 194-198): 6 decimal places below 0.01,
4 below 1, otherwise 2. -/
def formatPrice (p : ℚ) : String :=
  if p < 0.01 then toFixed p 6
  else if p < 1 then toFixed p 4
  else toFixed p 2

/-- C9: prices are formatted by magnitude — 6 decimal places below 0.01,
4 below 1, 2 otherwise — and on the spec's examples 0.000123 renders as
"0.000123", 0.456 as "0.4560" and 123.4 as "123.40". -/
theorem formatPrice_by_magnitude :
    (∀ p : ℚ, formatPrice p =
      if p < 0.01 then toFixed p 6 else if p < 1 then toFixed p 4 else toFixed p 2) ∧
    formatPrice 0.000123 = "0.000123" ∧
    formatPrice 0.456 = "0.4560" ∧
    formatPrice 123.4 = "123.40" := by
  refine ⟨fun p => rfl, ?_, ?_, ?_⟩
  · rw [formatPrice, if_pos (by norm_num)]
    have h : ((0.000123 : ℚ) * (10 : ℚ) ^ 6) = ((123 : ℤ) : ℚ) := by norm_num
    unfold toFixed
    rw [h, round_intCast]
    decide
  · rw [formatPrice, if_neg (by norm_num), if_pos (by norm_num)]
    have h : ((0.456 : ℚ) * (10 : ℚ) ^ 4) = ((4560 : ℤ) : ℚ) := by norm_num
    unfold toFixed
    rw [h, round_intCast]
    decide
  · rw [formatPrice, if_neg (by norm_num), if_neg (by norm_num)]
    have h : ((123.4 : ℚ) * (10 : ℚ) ^ 2) = ((12340 : ℤ) : ℚ) := by norm_num
    unfold toFixed
    rw [h, round_intCast]
    decide

/-- `calculateRSI` (server.ts lines 100-122), translated index for index:
the seed loop accumulates `gains`/`losses` over the deltas
`closes[i] - closes[i-1]` for `i = 1 .. period` (a non-positive delta is
subtracted from `losses`), the Wilder smoothing loop updates the averages
for `i = period+1 .. closes.length - 1`, and the result is 50 for short
inputs, 100 when the final average loss is zero, else
`100 - 100 / (1 + avgGain / avgLoss)`. -/
def calculateRSI (closes : List ℚ) (period : ℕ) : ℚ :=
  if closes.length ≤ period then 50
  else
    let seed := (List.range' 1 period).foldl
      (fun (gl : ℚ × ℚ) i =>
        let change := closes.getD i 0 - closes.getD (i - 1) 0
        if 0 < change then (gl.1 + change, gl.2) else (gl.1, gl.2 - change))
      (0, 0)
    let final := (List.range' (period + 1) (closes.length - (period + 1))).foldl
      (fun (gl : ℚ × ℚ) i =>
        let change := closes.getD i 0 - closes.getD (i - 1) 0
        let gain := if 0 < change then change else 0
        let loss := if change < 0 then -change else 0
        ((gl.1 * ((period : ℚ) - 1) + gain) / (period : ℚ),
         (gl.2 * ((period : ℚ) - 1) + loss) / (period : ℚ)))
      (seed.1 / (period : ℚ), seed.2 / (period : ℚ))
    if final.2 = 0 then 100
    else 100 - 100 / (1 + final.1 / final.2)

/-- The RSI as the spec words it: the seed average gain (resp. loss) is the
sum of the positive (resp. negated negative) deltas among the first
`period` deltas divided by `period`; each subsequent delta `d` updates the
averages by Wilder smoothing with gain `max d 0` and loss `max (-d) 0`;
the result is 50 for sequences of length ≤ `period`, 100 when the final
average loss is 0, else `100 - 100 / (1 + avgGain / avgLoss)`. -/
def rsiSpec (closes : List ℚ) (period : ℕ) : ℚ :=
  if closes.length ≤ period then 50
  else
    let seedGain :=
      (((List.range' 1 period).map
        (fun i => max (closes.getD i 0 - closes.getD (i - 1) 0) 0)).sum) / (period : ℚ)
    let seedLoss :=
      (((List.range' 1 period).map
        (fun i => max (-(closes.getD i 0 - closes.getD (i - 1) 0)) 0)).sum) / (period : ℚ)
    let final := (List.range' (period + 1) (closes.length - (period + 1))).foldl
      (fun (gl : ℚ × ℚ) i =>
        ((gl.1 * ((period : ℚ) - 1) + max (closes.getD i 0 - closes.getD (i - 1) 0) 0) /
           (period : ℚ),
         (gl.2 * ((period : ℚ) - 1) + max (-(closes.getD i 0 - closes.getD (i - 1) 0)) 0) /
           (period : ℚ)))
      (seedGain, seedLoss)
    if final.2 = 0 then 100
    else 100 - 100 / (1 + final.1 / final.2)

lemma seed_foldl_eq_sums (closes : List ℚ) :
    ∀ (L : List ℕ) (g0 l0 : ℚ),
      L.foldl
        (fun (gl : ℚ × ℚ) i =>
          if 0 < closes.getD i 0 - closes.getD (i - 1) 0 then
            (gl.1 + (closes.getD i 0 - closes.getD (i - 1) 0), gl.2)
          else (gl.1, gl.2 - (closes.getD i 0 - closes.getD (i - 1) 0)))
        (g0, l0)
      = (g0 + (L.map (fun i => max (closes.getD i 0 - closes.getD (i - 1) 0) 0)).sum,
         l0 + (L.map (fun i => max (-(closes.getD i 0 - closes.getD (i - 1) 0)) 0)).sum) := by
  intro L
  induction L with
  | nil =>
    intro g0 l0
    simp
  | cons a L ih =>
    intro g0 l0
    rw [List.foldl_cons]
    dsimp only
    rw [List.map_cons, List.map_cons, List.sum_cons, List.sum_cons]
    rcases lt_or_le 0 (closes.getD a 0 - closes.getD (a - 1) 0) with h | h
    · rw [if_pos h, ih, max_eq_left h.le, max_eq_right (neg_nonpos.mpr h.le), zero_add,
        add_assoc]
    · rw [if_neg (not_lt.mpr h), ih, max_eq_right h, max_eq_left (neg_nonneg.mpr h),
        zero_add, sub_eq_add_neg, add_assoc]

lemma rsi_if_gain_eq_max (c : ℚ) : (if 0 < c then c else 0) = max c 0 := by
  rcases le_or_lt c 0 with h | h
  · rw [if_neg (not_lt.mpr h), max_eq_right h]
  · rw [if_pos h, max_eq_left h.le]

lemma rsi_if_loss_eq_max (c : ℚ) : (if c < 0 then -c else 0) = max (-c) 0 := by
  rcases le_or_lt 0 c with h | h
  · rw [if_neg (not_lt.mpr h), max_eq_right (neg_nonpos.mpr h)]
  · rw [if_pos h, max_eq_left (neg_nonneg.mpr h.le)]

lemma smooth_fun_eq (closes : List ℚ) (period : ℕ) :
    (fun (gl : ℚ × ℚ) (i : ℕ) =>
      ((gl.1 * ((period : ℚ) - 1) +
          (if 0 < closes.getD i 0 - closes.getD (i - 1) 0 then
            closes.getD i 0 - closes.getD (i - 1) 0 else 0)) / (period : ℚ),
       (gl.2 * ((period : ℚ) - 1) +
          (if closes.getD i 0 - closes.getD (i - 1) 0 < 0 then
            -(closes.getD i 0 - closes.getD (i - 1) 0) else 0)) / (period : ℚ)))
    = (fun (gl : ℚ × ℚ) (i : ℕ) =>
      ((gl.1 * ((period : ℚ) - 1) + max (closes.getD i 0 - closes.getD (i - 1) 0) 0) /
         (period : ℚ),
       (gl.2 * ((period : ℚ) - 1) + max (-(closes.getD i 0 - closes.getD (i - 1) 0)) 0) /
         (period : ℚ))) := by
  funext gl i
  rw [rsi_if_gain_eq_max, rsi_if_loss_eq_max]

lemma smooth_foldl_loss_zero (closes : List ℚ) (period : ℕ) :
    ∀ L : List ℕ, (∀ i ∈ L, 0 < closes.getD i 0 - closes.getD (i - 1) 0) →
      ∀ g0 : ℚ,
      (L.foldl
        (fun (gl : ℚ × ℚ) i =>
          ((gl.1 * ((period : ℚ) - 1) + max (closes.getD i 0 - closes.getD (i - 1) 0) 0) /
             (period : ℚ),
           (gl.2 * ((period : ℚ) - 1) + max (-(closes.getD i 0 - closes.getD (i - 1) 0)) 0) /
             (period : ℚ)))
        (g0, 0)).2 = 0 := by
  intro L
  induction L with
  | nil =>
    intro _ g0
    rfl
  | cons a L ih =>
    intro h g0
    rw [List.foldl_cons]
    dsimp only
    rw [max_eq_right (neg_nonpos.mpr (h a (List.mem_cons_self a L)).le)]
    rw [zero_mul, add_zero, zero_div]
    exact ih (fun i hi => h i (List.mem_cons_of_mem a hi)) _

lemma delta_pos_of_mono (closes : List ℚ)
    (hmono : ∀ i, i < closes.length - 1 → closes.getD i 0 < closes.getD (i + 1) 0)
    (i : ℕ) (h1 : 1 ≤ i) (h2 : i < closes.length) :
    0 < closes.getD i 0 - closes.getD (i - 1) 0 := by
  have h3 : i - 1 < closes.length - 1 := by omega
  have h4 := hmono (i - 1) h3
  have h5 : i - 1 + 1 = i := by omega
  rw [h5] at h4
  linarith

/-- C6: `calculateRSI` with period 14 computes exactly the spec's RSI: it
returns 50 for sequences of length ≤ 14, otherwise seeds the average
gain/loss from the first 14 deltas (sum of positive resp. negated negative
deltas over 14), Wilder-smooths every later delta with mutually exclusive
gain/loss, and returns 100 when the final average loss is 0 — in particular
for every strictly increasing sequence longer than 14 — and
`100 - 100 / (1 + avgGain / avgLoss)` otherwise. -/
theorem calculateRSI_matches_spec (closes : List ℚ) :
    calculateRSI closes 14 = rsiSpec closes 14 ∧
    (closes.length ≤ 14 → calculateRSI closes 14 = 50) ∧
    ((∀ i, i < closes.length - 1 → closes.getD i 0 < closes.getD (i + 1) 0) →
      14 < closes.length → calculateRSI closes 14 = 100) := by
  refine ⟨?_, ?_, ?_⟩
  · by_cases hlen : closes.length ≤ 14
    · unfold calculateRSI rsiSpec
      rw [if_pos hlen, if_pos hlen]
    · unfold calculateRSI rsiSpec
      rw [if_neg hlen, if_neg hlen]
      dsimp only
      rw [seed_foldl_eq_sums closes (List.range' 1 14) 0 0]
      dsimp only
      rw [smooth_fun_eq closes 14, zero_add, zero_add]
  · intro hlen
    unfold calculateRSI
    rw [if_pos hlen]
  · intro hmono hlen
    unfold calculateRSI
    rw [if_neg (not_le.mpr hlen)]
    dsimp only
    rw [seed_foldl_eq_sums closes (List.range' 1 14) 0 0]
    dsimp only
    rw [smooth_fun_eq closes 14, zero_add, zero_add]
    have hseedloss :
        ((List.range' 1 14).map
          (fun i => max (-(closes.getD i 0 - closes.getD (i - 1) 0)) 0)).sum = 0 := by
      apply List.sum_eq_zero
      intro x hx
      rcases List.mem_map.mp hx with ⟨i, hi, rfl⟩
      rcases List.mem_range'_1.mp hi with ⟨hi1, hi2⟩
      have hpos := delta_pos_of_mono closes hmono i hi1 (by omega)
      exact max_eq_right (neg_nonpos.mpr hpos.le)
    rw [hseedloss, zero_div]
    have hLpos : ∀ i ∈ List.range' (14 + 1) (closes.length - (14 + 1)),
        0 < closes.getD i 0 - closes.getD (i - 1) 0 := by
      intro i hi
      rcases List.mem_range'_1.mp hi with ⟨hi1, hi2⟩
      exact delta_pos_of_mono closes hmono i (by omega) (by omega)
    rw [if_pos (smooth_foldl_loss_zero closes 14
      (List.range' (14 + 1) (closes.length - (14 + 1))) hLpos _)]

/-- Witness for C6: a constant 3-element sequence gives RSI 50; the strictly
increasing sequence 1..15 gives RSI 100. -/
theorem calculateRSI_matches_spec_witness :
    calculateRSI [1, 1, 1] 14 = 50 ∧
    calculateRSI [1, 2, 3, 4, 5, 6, 7, 8, 9, 10, 11, 12, 13, 14, 15] 14 = 100 :=
  ⟨(calculateRSI_matches_spec [1, 1, 1]).2.1 (by decide),
   (calculateRSI_matches_spec [1, 2, 3, 4, 5, 6, 7, 8, 9, 10, 11, 12, 13, 14, 15]).2.2
     (by decide) (by decide)⟩
